import Mathlib

/-!
Shallow embedding of `src/planning.py` (PlanningsUPMC): the UPMC schedule
scrape–normalize–cache pipeline.  Python strings are Lean `String`s (all
operations are implemented structurally on the underlying `List Char` so that
everything evaluates inside the kernel), machine times are `Int` seconds,
file-system and HTTP effects are passed explicitly through an `Env` record,
and Python exceptions are the `Except PyErr` monad.
-/

namespace UPMC

/-! ### Python string primitives, implemented on `List Char` -/

/-- Characters stripped by Python `str.strip()` (ASCII whitespace). -/
def isPyWs (c : Char) : Bool :=
  c == ' ' || c == '\t' || c == '\n' || c == '\r' || c == '\x0b' || c == '\x0c'

def dropLeading (p : Char → Bool) : List Char → List Char
  | [] => []
  | c :: cs => if p c then dropLeading p cs else c :: cs

/-- Strip characters satisfying `p` from both ends, as Python `str.strip`. -/
def stripBoth (p : Char → Bool) (cs : List Char) : List Char :=
  ((dropLeading p ((dropLeading p cs).reverse)).reverse)

/-- Python `s.strip()`. -/
def pyStrip (s : String) : String := ⟨stripBoth isPyWs s.data⟩

/-- Python `s.strip(',')`. -/
def pyStripComma (s : String) : String := ⟨stripBoth (fun c => c == ',') s.data⟩

/-- Python `s.strip('(')` / `s.strip(')')` composition is modelled where needed. -/
def pyStripChar (ch : Char) (s : String) : String := ⟨stripBoth (fun c => c == ch) s.data⟩

/-- Python `s.upper()` (ASCII; the fields it is applied to are ASCII codes). -/
def pyUpper (s : String) : String := ⟨s.data.map Char.toUpper⟩

/-- Python `s.split(sep)` for a one-character separator: always non-empty,
`""` splits to `[""]`. -/
def splitOnChar (sep : Char) : List Char → List (List Char)
  | [] => [[]]
  | c :: cs =>
    let r := splitOnChar sep cs
    if c == sep then [] :: r
    else
      match r with
      | [] => [[c]]
      | h :: t => (c :: h) :: t

def joinChars (sep : List Char) : List (List Char) → List Char
  | [] => []
  | [x] => x
  | x :: y :: ys => x ++ sep ++ joinChars sep (y :: ys)

/-- Python `sep.join(parts)`. -/
def joinSep (sep : String) (parts : List String) : String :=
  ⟨joinChars sep.data (parts.map String.data)⟩

def startsWithChars : List Char → List Char → Bool
  | [], _ => true
  | _ :: _, [] => false
  | p :: ps, c :: cs => p == c && startsWithChars ps cs

/-- Truthiness of an optional Python string (`None` and `''` are falsy). -/
def optStrTruthy : Option String → Bool
  | none => false
  | some s => !s.data.isEmpty

/-- Truthiness of an optional Python list (`None` and `[]` are falsy). -/
def optListTruthy : Option (List String) → Bool
  | none => false
  | some l => !l.isEmpty

/-- Association-list lookup, modelling Python `dict` access. -/
def assocLookup {α : Type} (k : String) : List (String × α) → Option α
  | [] => none
  | (k', v) :: rest => if k' == k then some v else assocLookup k rest

/-- Code-point comparison of strings, as Python `<=` on `str`. -/
def strLeChars : List Char → List Char → Bool
  | [], _ => true
  | _ :: _, [] => false
  | a :: as, b :: bs =>
    if a.toNat < b.toNat then true
    else if b.toNat < a.toNat then false
    else strLeChars as bs

def strLe (s t : String) : Bool := strLeChars s.data t.data

/-- Stable insertion into an ascending list (used to model Python `list.sort`). -/
def insertSortedStr (x : String) : List String → List String
  | [] => [x]
  | y :: ys => if strLe y x then y :: insertSortedStr x ys else x :: y :: ys

/-- Python `list.sort()` on strings (ascending, stable). -/
def sortStrings (l : List String) : List String :=
  l.foldl (fun acc x => insertSortedStr x acc) []

/-! ### Data model: dates, events, calendars -/

inductive Tz where
  | paris
  | utc
deriving DecidableEq

/-- A Python `datetime`: a wall-clock time in seconds plus an optional
timezone tag (`none` = zone-naive). -/
structure DateTime where
  time : Int
  tz : Option Tz
deriving DecidableEq

/-- `pytz.timezone('Europe/Paris').localize`: attaches Europe/Paris to a naive
datetime; raises `ValueError` on an already-aware one. -/
def pytzLocalize (d : DateTime) : Except Unit DateTime :=
  match d.tz with
  | some _ => .error ()
  | none => .ok ⟨d.time, some Tz.paris⟩

/-- UTC offset of the source timezone, in seconds.  The exact value (CET/CEST)
is irrelevant to every claim; only the conversion shape matters. -/
def parisOffset : Int := 3600

/-- `dt.astimezone(pytz.utc)` on a Paris-aware datetime. -/
def astimezoneUtc (d : DateTime) : DateTime :=
  ⟨d.time - parisOffset, some Tz.utc⟩

/-- A parsed `RRULE` (icalendar `vRecur`): the `UNTIL` key is a list of
datetimes when present (named `untils` after the source variable, since
`until` is reserved); the other rule parts are carried opaquely. -/
structure VRecur where
  untils : Option (List DateTime)
  rest : String
deriving DecidableEq

/-- A parsed `VEVENT`.  `dtstart`/`dtend`/`dtstamp`/`summary`/`description`
are accessed unconditionally by the source; `categories` is guarded by a
membership test and `rrule` may be absent (unconditional access raises). -/
structure VEvent where
  dtstart : DateTime
  dtend : DateTime
  dtstamp : DateTime
  rrule : Option VRecur
  summary : String
  categories : Option String
  description : String
deriving DecidableEq

/-- A calendar subcomponent: the source skips anything that is not an `Event`. -/
inductive Component where
  | event (e : VEvent)
  | other (tag : String)
deriving DecidableEq

/-- A parsed `VCALENDAR` with the properties the normalizer writes. -/
structure VCalendar where
  xwrCalname : Option String
  xwrCaldesc : Option String
  xwrTimezone : Option String
  xPublishedTtl : Option Int
  calscale : Option String
  subcomponents : List Component
deriving DecidableEq

/-- The events of a calendar, in order. -/
def eventsOf (cal : VCalendar) : List VEvent :=
  cal.subcomponents.filterMap fun c =>
    match c with
    | .event e => some e
    | .other _ => none

/-! ### Catalog data model -/

structure Public where
  name : String
  groups : List String
  url : String
deriving DecidableEq

structure Institution where
  name : String
  url : String
  publics : List Public
deriving DecidableEq

/-- Contents of `cache/upmc_plannings.json`. -/
structure PlanningsSnapshot where
  plannings : List (String × Institution)
  datetime : Int
deriving DecidableEq

/-- Python exceptions that escape the modelled functions. -/
inductive PyErr where
  | httpAbort (code : Nat)
  | keyError
  | indexError
  | typeError
  | valueError
  | ioError
  | upstreamError
deriving DecidableEq

def exceptIsOk {ε α : Type} : Except ε α → Bool
  | .ok _ => true
  | .error _ => false

def errOf {ε α : Type} : Except ε α → Option ε
  | .ok _ => none
  | .error e => some e

/-! ### Regex models

`re_group = re.compile(r'(\[[0-9a-zA-Z]+\]) (.+)')` and
`re_speaker = re.compile(r'Intervenant :([^-]+)')`, both used through
`findall(...)[0]`, i.e. the leftmost match. -/

/-- Try the group pattern at the head of the character list: `[`, one or more
ASCII alphanumerics, `]`, a space, then one or more characters (`.` excludes
newline).  Returns (bracketed tag including brackets, remainder capture). -/
def groupMatchAt : List Char → Option (List Char × List Char)
  | '[' :: cs =>
    let alnums := cs.takeWhile Char.isAlphanum
    let afterAlnums := cs.dropWhile Char.isAlphanum
    if alnums.isEmpty then none
    else
      match afterAlnums with
      | ']' :: ' ' :: tail =>
        let cap := tail.takeWhile (fun c => c != '\n')
        if cap.isEmpty then none
        else some ('[' :: (alnums ++ [']']), cap)
      | _ => none
  | _ => none

def findGroupAux : List Char → Option (List Char × List Char)
  | [] => none
  | c :: cs =>
    match groupMatchAt (c :: cs) with
    | some r => some r
    | none => findGroupAux cs

/-- Leftmost match of `re_group` on an event title. -/
def findGroupMatch (s : String) : Option (String × String) :=
  (findGroupAux s.data).map fun r => (⟨r.1⟩, ⟨r.2⟩)

def speakerTag : List Char := "Intervenant :".data

def findSpeakerAux : List Char → Option (List Char)
  | [] => none
  | c :: cs =>
    if startsWithChars speakerTag (c :: cs) then
      let cap := ((c :: cs).drop speakerTag.length).takeWhile (fun x => x != '-')
      if cap.isEmpty then findSpeakerAux cs else some cap
    else findSpeakerAux cs

/-- Leftmost capture of `re_speaker` on the old event description. -/
def findSpeaker (s : String) : Option String :=
  (findSpeakerAux s.data).map fun cs => (⟨cs⟩ : String)

/-! ### Calendar normalizer `fix_upmc_ical`

Faithful to `src/planning.py` lines 173-296; the per-event body is split into
the source's three sequential phases (dates, recurrence, title/description).
-/

/-- The event title after removing the leading bracketed group tag, when the
group regex matches (`title = group_match[0][1]`), and unchanged otherwise. -/
def workingTitle (s : String) : String :=
  match findGroupMatch s with
  | some (_, rest) => rest
  | none => s

/-- Category classification: `CM`, `TD`, `AUTRE` (case-insensitive after
strip/upper), anything else verbatim.  Returns (long label, short label
without the trailing space). -/
def courseTypesOf (cats : Option String) : String × String :=
  match cats with
  | none => ("", "")
  | some c =>
    let raw := pyUpper (pyStrip c)
    if raw == "CM" then ("Cours magistral", "")
    else if raw == "TD" then ("Travaux dirigés", "TD")
    else if raw == "AUTRE" then ("", "")
    else (raw, raw)

/-- `[part.strip().strip(',') for part in title.split('-')]`. -/
def titleParts (title : String) : List String :=
  (splitOnChar '-' title.data).map fun cs => pyStripComma (pyStrip ⟨cs⟩)

/-- The 2-or-3-segment split: `code = parts[0]`; with exactly two segments
`name = parts[0]`, `place = parts[1]`; otherwise `name = parts[1]`,
`place = parts[2]` — an `IndexError` when only one segment exists. -/
def parseTitleParts : List String → Except PyErr (String × String × String)
  | [] => .ok ("", "", "")
  | [_] => .error .indexError
  | [c, p] => .ok (c, c, p)
  | c :: n :: p :: _ => .ok (c, n, p)

/-- `if ':' in place: place = ':'.join(place.split(':')[1:]).strip()`. -/
def fixPlace (place : String) : String :=
  if place.data.contains ':' then
    pyStrip (joinSep ":" (((splitOnChar ':' place.data).map fun cs => (⟨cs⟩ : String)).tail))
  else place

/-- `group.strip().replace("[", "").replace("]", "")`. -/
def stripBrackets (s : String) : String :=
  ⟨s.data.filter fun c => c != '[' && c != ']'⟩

/-- Phase 1: attach Europe/Paris to `dtstart`/`dtend`, localize `dtstamp` and
convert it to UTC (lines 217-223). -/
def fixDates (e : VEvent) : Except PyErr VEvent :=
  match pytzLocalize e.dtstart with
  | .error _ => .error .valueError
  | .ok start' =>
    match pytzLocalize e.dtend with
    | .error _ => .error .valueError
    | .ok end' =>
      match pytzLocalize e.dtstamp with
      | .error _ => .error .valueError
      | .ok stamp' =>
        .ok { e with dtstart := start', dtend := end', dtstamp := astimezoneUtc stamp' }

def localizeAll : List DateTime → Except PyErr (List DateTime)
  | [] => .ok []
  | d :: ds =>
    match pytzLocalize d with
    | .error _ => .error .valueError
    | .ok d' =>
      match localizeAll ds with
      | .error err => .error err
      | .ok ds' => .ok (d' :: ds')

/-- Phase 2 (lines 226-231): `event['rrule']` raises `KeyError` when absent,
`recurrence['until']` raises `KeyError` when the rule has no `UNTIL`, and each
until bound is localized.  `vRecur.from_ical` returns the event's own parsed
`vRecur` (its `isinstance` fast path), so the in-place `until` update lands in
the event. -/
def fixRRule (e : VEvent) : Except PyErr VEvent :=
  match e.rrule with
  | none => .error .keyError
  | some r =>
    match r.untils with
    | none => .error .keyError
    | some us =>
      match localizeAll us with
      | .error err => .error err
      | .ok us' => .ok { e with rrule := some ⟨some us', r.rest⟩ }

/-- Phase 3 (lines 233-294): rewrite summary and description. -/
def fixTitleDesc (remove_groups : Bool) (e : VEvent) : Except PyErr VEvent :=
  let ct := courseTypesOf e.categories
  let course_type := ct.1
  let course_type_short := if ct.2 == "" then ct.2 else ct.2 ++ " "
  let group : Option String := (findGroupMatch e.summary).map Prod.fst
  match parseTitleParts (titleParts (workingTitle e.summary)) with
  | .error err => .error err
  | .ok (code, name, place0) =>
    let place := fixPlace place0
    let group_title :=
      match group with
      | none => ""
      | some g => if remove_groups then "" else g ++ " "
    let speaker :=
      match findSpeaker e.description with
      | some s => let s2 := pyStrip s; if s2 == "" then "inconnu" else s2
      | none => "inconnu"
    .ok { e with
      summary := group_title ++ course_type_short ++ name ++
        (if code == name then "" else " (" ++ code ++ ")"),
      description :=
        course_type ++ (if course_type == "" then "" else " : ") ++ name ++
          " (" ++ code ++ ")" ++
          (match group with
           | some g => "\nGroupe : " ++ stripBrackets (pyStrip g)
           | none => "") ++
          "\n\nIntervenant : " ++ speaker ++
          "\n\nSalle : " ++ place }

def fixEvent (remove_groups : Bool) (e : VEvent) : Except PyErr VEvent :=
  match fixDates e with
  | .error err => .error err
  | .ok e1 =>
    match fixRRule e1 with
    | .error err => .error err
    | .ok e2 => fixTitleDesc remove_groups e2

/-- `if type(event) is not Event: continue`. -/
def fixComponent (remove_groups : Bool) : Component → Except PyErr Component
  | .other t => .ok (.other t)
  | .event e =>
    match fixEvent remove_groups e with
    | .error err => .error err
    | .ok e' => .ok (.event e')

def fixComponents (remove_groups : Bool) : List Component → Except PyErr (List Component)
  | [] => .ok []
  | c :: cs =>
    match fixComponent remove_groups c with
    | .error err => .error err
    | .ok c' =>
      match fixComponents remove_groups cs with
      | .error err => .error err
      | .ok cs' => .ok (c' :: cs')

/-! ### Effect environment

The Python functions read and write cache files, perform HTTP requests and
consult the clock; all of that state is passed explicitly.  `Option`/`Except`
model read and transport failures; the `Bool` write flags tell whether a file
write raises `IOError`.  `parseIcal` is the third-party icalendar parser
(`Calendar.from_ical`), an oracle supplied by the environment; `none` models
a parse failure (`ValueError`). -/
structure Env where
  planningsFile : Option PlanningsSnapshot
  downloadResult : Except Unit (List (String × Institution))
  catalogWriteOk : Bool
  icalsFile : Option (List (String × Int))
  icalBodyReadOk : Bool
  http : String → Except Unit (Bool × String)
  parseIcal : String → Option VCalendar
  now : Int
  feedWriteOk : Bool

/-! ### Catalog cache `get_upmc_plannings` (lines 17-33) -/

/-- The download-and-persist path (lines 29-33).  The boolean in the result
records that the upstream discovery fetch was performed. -/
def download_and_save (env : Env) : Except PyErr (List (String × Institution)) × Bool :=
  match env.downloadResult with
  | .error _ => (.error .upstreamError, true)
  | .ok ps => if env.catalogWriteOk then (.ok ps, true) else (.error .ioError, true)

/-- `get_upmc_plannings(force_cache, force_update)`: read the snapshot unless
`force_update`; return it when `force_cache` or it is younger than one day;
a read failure with `force_cache` aborts with HTTP 503; otherwise fall through
to discovery. -/
def get_upmc_plannings (env : Env) (force_cache force_update : Bool) :
    Except PyErr (List (String × Institution)) × Bool :=
  if !force_update then
    match env.planningsFile with
    | some snap =>
      if force_cache || decide (env.now - snap.datetime < 86400) then (.ok snap.plannings, false)
      else download_and_save env
    | none =>
      if force_cache then (.error (.httpAbort 503), false)
      else download_and_save env
  else download_and_save env

def findPublic : List Public → String → Option Public
  | [], _ => none
  | p :: ps, code => if p.name == code then some p else findPublic ps code

/-- `get_upmc_public(uni, public_code)` (lines 107-113): loads the catalog
with default flags and scans the institution's publics by exact name. -/
def get_upmc_public (env : Env) (uni public_code : String) :
    Except PyErr (Option Public) :=
  match (get_upmc_plannings env true false).1 with
  | .error e => .error e
  | .ok ps =>
    match assocLookup uni ps with
    | none => .ok none
    | some inst => .ok (findPublic inst.publics public_code)

/-! ### Calendar-level normalizer (lines 173-296) -/

/-- `calendar_url = get_upmc_public(uni, public_code)['url']` when both `uni`
and `public_code` are truthy; subscripting `None` raises `TypeError`. -/
def calendarUrlOf (env : Env) (uni public_code : Option String) :
    Except PyErr (Option String) :=
  if optStrTruthy uni && optStrTruthy public_code then
    match get_upmc_public env (uni.getD "") (public_code.getD "") with
    | .error e => .error e
    | .ok none => .error .typeError
    | .ok (some pub) => .ok (some pub.url)
  else .ok none

def mkCalendarTitle (public_code : Option String) (groups : Option (List String)) : String :=
  let t := "Calendrier de l\x27UPMC"
  let t := if optStrTruthy public_code then t ++ " pour l\x27UE " ++ public_code.getD "" else t
  if optListTruthy groups then
    t ++ " (groupe" ++ (if (groups.getD []).length > 1 then "s" else "") ++ " " ++
      joinSep ", " (groups.getD []) ++ ")"
  else t

def mkCalendarDesc (uni public_code : Option String) (groups : Option (List String))
    (calendar_url : Option String) : String :=
  let d := "Calendrier de l\x27UPMC"
  let d := if optStrTruthy public_code then d ++ " pour l\x27UE " ++ public_code.getD "" else d
  let d :=
    if optListTruthy groups then
      d ++ " ; groupe" ++ (if (groups.getD []).length > 1 then "s" else "") ++ " " ++
        joinSep ", " (groups.getD []) ++ "."
    else d
  if optStrTruthy uni && optStrTruthy public_code then
    d ++ "\n\nRetrouvez ce calendrier sur le site de l\x27UPMC : \n" ++ calendar_url.getD "None"
  else d

/-- `fix_upmc_ical(raw_ical, uni, public_code, groups, remove_groups)` on the
parsed document: set the calendar properties (X-WR-CALNAME, X-WR-CALDESC,
X-WR-TIMEZONE, X-PUBLISHED-TTL as 6 hours = 21600 s, CALSCALE) and transform
every event. -/
def fix_upmc_ical (env : Env) (cal : VCalendar) (uni public_code : Option String)
    (groups : Option (List String)) (remove_groups : Bool) : Except PyErr VCalendar :=
  match calendarUrlOf env uni public_code with
  | .error e => .error e
  | .ok calendar_url =>
    match fixComponents remove_groups cal.subcomponents with
    | .error e => .error e
    | .ok comps =>
      .ok { cal with
        xwrCalname := some (mkCalendarTitle public_code groups),
        xwrCaldesc := some (mkCalendarDesc uni public_code groups calendar_url),
        xwrTimezone := some "Europe/Paris",
        xPublishedTtl := some 21600,
        calscale := some "GREGORIAN",
        subcomponents := comps }

/-! ### Raw-text trimming (lines 149-158) -/

def isEndLine (l : String) : Bool := pyUpper (pyStrip l) == "END:VCALENDAR"

def findIdxFrom (p : String → Bool) : List String → Option Nat
  | [] => none
  | l :: ls => if p l then some 0 else (findIdxFrom p ls).map (· + 1)

def linesOf (text : String) : List String :=
  (splitOnChar '\n' text.data).map fun cs => (⟨cs⟩ : String)

/-- Reverse the lines, find the first line equal (stripped, upper-cased) to
`END:VCALENDAR`, keep from there (`end_index` stays `-1` when absent, and
`lines_rev[-1:]` keeps only the original first line), and restore order. -/
def trimmedLines (text : String) : List String :=
  let lines_rev := (linesOf text).reverse
  match findIdxFrom isEndLine lines_rev with
  | some i => (lines_rev.drop i).reverse
  | none => (lines_rev.drop (lines_rev.length - 1)).reverse

def trim_ical_text (text : String) : String := joinSep "\n" (trimmedLines text)

/-! ### Feed fetcher `get_upmc_ical` (lines 116-171) -/

def icalUrl (uni public_code group : String) : String :=
  "http://planning.upmc.fr/ical/" ++ uni ++ "/" ++ public_code ++ "/" ++ group

/-- Observable facts about one fetch: the resolved group token, whether the
feed-cache entry was fresh, whether the cached body read was attempted and
succeeded, and whether the upstream HTTP fetch was performed. -/
structure Trace where
  resolvedGroup : Option String
  cacheFresh : Bool
  bodyReadOk : Option Bool
  fetchedUpstream : Bool
deriving DecidableEq

def Trace.failed : Trace := ⟨none, false, none, false⟩

/-- The fetch-and-normalize body of `get_upmc_ical`: the upstream request is
always performed (a transport error propagates, a non-success HTTP status
returns `None` / `.ok none`), the response is trimmed, parsed and normalized,
and then persisted — the cache-write failure handler is
`except Exception as e: raise e`, so a persistence failure propagates. -/
def fetchBody (env : Env) (uni public_code : String) (groups : List String)
    (group : String) (remove_groups : Bool) : Except PyErr (Option VCalendar) :=
  match env.http (icalUrl uni public_code group) with
  | .error _ => .error .upstreamError
  | .ok (false, _) => .ok none
  | .ok (true, text) =>
    match env.parseIcal (trim_ical_text text) with
    | none => .error .valueError
    | some cal =>
      match fix_upmc_ical env cal (some uni) (some public_code) (some groups) remove_groups with
      | .error e => .error e
      | .ok fixed =>
        if env.feedWriteOk then .ok (some fixed) else .error .ioError

/-- The part of `get_upmc_ical` after group resolution.  The feed-cache fast
path is present in the source but inert: `with open(...) as f: pass#return
f.read()` opens the cached body and discards it (and swallows read failures),
so a fresh cache entry never short-circuits the upstream fetch — the trace
records the freshness test and the discarded body read, and the result is
`fetchBody` regardless. -/
def get_upmc_ical_fetch (env : Env) (uni public_code : String) (groups : List String)
    (group : String) (remove_groups : Bool) (icals : List (String × Int)) :
    Except PyErr (Option VCalendar) × Trace :=
  let url := icalUrl uni public_code group
  let cacheFresh :=
    match assocLookup url icals with
    | some ts => decide (env.now - ts < 1800)
    | none => false
  let bodyRead := if cacheFresh then some env.icalBodyReadOk else none
  (fetchBody env uni public_code groups group remove_groups,
   ⟨some group, cacheFresh, bodyRead, true⟩)

/-- `get_upmc_ical(uni, public_code, group)`: read the feed-cache index
(failures swallowed), resolve `'all'`/`'tout'` through the catalog
(`'_'.join(groups)` or the literal `'0'`; subscripting a missing public raises
`TypeError`), then fetch with `remove_groups = not groups_all`. -/
def get_upmc_ical (env : Env) (uni public_code group : String) :
    Except PyErr (Option VCalendar) × Trace :=
  let icals := env.icalsFile.getD []
  let groups_all := group == "all" || group == "tout"
  if groups_all then
    match get_upmc_public env uni public_code with
    | .error e => (.error e, Trace.failed)
    | .ok none => (.error .typeError, Trace.failed)
    | .ok (some pub) =>
      get_upmc_ical_fetch env uni public_code pub.groups
        (if pub.groups.isEmpty then "0" else joinSep "_" pub.groups) false icals
  else
    get_upmc_ical_fetch env uni public_code [group] group true icals

/-! ### Subgroup discovery inside `download_upmc_plannings` (lines 73-95)

The `jsoncal` request, JSONP unwrapping and record scan sit in a
`try/except Exception: pass` block that mutates the local `groups` list, so a
failure keeps whatever was collected before it (and skips the final sort). -/

/-- One record of the subgroup-discovery JSON; `none` models a record without
the `avaibleGroupId` field (access raises `KeyError`). -/
structure JsonRecord where
  avaibleGroupId : Option String
deriving DecidableEq

/-- Outcome of the `jsoncal` request: transport/HTTP failure, JSON parse
failure, or a parsed record list. -/
inductive JsonCalResponse where
  | netError
  | parseError
  | records (rs : List JsonRecord)
deriving DecidableEq

/-- The record loop: deduplicating append; a missing field stops the loop with
the accumulator kept (`false` = aborted by the swallowed `KeyError`). -/
def collectGroups (acc : List String) : List JsonRecord → List String × Bool
  | [] => (acc, true)
  | r :: rs =>
    match r.avaibleGroupId with
    | none => (acc, false)
    | some g => collectGroups (if acc.contains g then acc else acc ++ [g]) rs

/-- The whole guarded block: any failure yields whatever `groups` holds at
that point; `groups.sort()` runs only when the loop completed. -/
def discover_groups : JsonCalResponse → List String
  | .netError => []
  | .parseError => []
  | .records rs =>
    match collectGroups [] rs with
    | (acc, true) => sortStrings acc
    | (acc, false) => acc

def mkPublicItem (it : String × String × JsonCalResponse) : Public :=
  { name := it.1, groups := discover_groups it.2.2, url := it.2.1 }

def insertPublic (x : Public) : List Public → List Public
  | [] => [x]
  | y :: ys => if strLe y.name x.name then y :: insertPublic x ys else x :: y :: ys

/-- `planning_publics.sort(key=lambda p: p['name'])`. -/
def sortPublics (l : List Public) : List Public :=
  l.foldl (fun acc x => insertPublic x acc) []

/-- The per-institution loop body of `download_upmc_plannings`: every
schedule-group (name, url, subgroup-discovery outcome) is recorded, whatever
that outcome was, and the list is sorted by name. -/
def download_publics (items : List (String × String × JsonCalResponse)) : List Public :=
  sortPublics (items.map mkPublicItem)

/-! ### Statement helpers -/

def exceptIsOkSome : Except PyErr (Option VCalendar) → Bool
  | .ok (some _) => true
  | _ => false

/-- Summary of the first event of a successful fetch result. -/
def firstSummary : Except PyErr (Option VCalendar) → Option String
  | .ok (some cal) => (eventsOf cal).head?.map VEvent.summary
  | _ => none

/-- The until bounds localized to Europe/Paris. -/
def localizedList (us : List DateTime) : List DateTime :=
  us.map fun d => ⟨d.time, some Tz.paris⟩

/-- Relation between an input and an output subcomponent stating the
recurrence-until rewrite: the input event carried an `RRULE` whose `UNTIL`
bounds were all zone-naive, and the output event's rule carries the same
bounds localized to Europe/Paris (hence explicitly timezone-aware). -/
def C2Rel (c c' : Component) : Prop :=
  ∀ e, c = Component.event e → ∃ e' r us,
    c' = Component.event e' ∧ e.rrule = some r ∧ r.untils = some us ∧
    (∀ d ∈ us, d.tz = none) ∧
    e'.rrule = some ⟨some (localizedList us), r.rest⟩

/-- Relation between an input and an output subcomponent stating the
date-localization invariant: the input start/end/stamp were zone-naive, the
output start/end carry Europe/Paris attached to the input wall-clock values,
and the output stamp is additionally converted to UTC. -/
def C3Rel (c c' : Component) : Prop :=
  ∀ e, c = Component.event e → ∃ e',
    c' = Component.event e' ∧
    e.dtstart.tz = none ∧ e.dtend.tz = none ∧ e.dtstamp.tz = none ∧
    e'.dtstart = ⟨e.dtstart.time, some Tz.paris⟩ ∧
    e'.dtend = ⟨e.dtend.time, some Tz.paris⟩ ∧
    e'.dtstamp = astimezoneUtc ⟨e.dtstamp.time, some Tz.paris⟩

/-! ### Concrete instances used by witnesses and counterexamples -/

/-- An environment whose catalog read fails and whose HTTP transport errors:
used where the claim under test never touches those capabilities. -/
def envT : Env := {
  planningsFile := none,
  downloadResult := .error (),
  catalogWriteOk := true,
  icalsFile := none,
  icalBodyReadOk := false,
  http := fun _ => .error (),
  parseIcal := fun _ => none,
  now := 0,
  feedWriteOk := true }

def pubC1 : Public :=
  { name := "MU", groups := ["A", "B"], url := "http://planning.upmc.fr/fac/MU" }

def instC1 : Institution :=
  { name := "Fac", url := "http://planning.upmc.fr/fac", publics := [pubC1] }

def evC1 : VEvent := {
  dtstart := ⟨3600, none⟩,
  dtend := ⟨7200, none⟩,
  dtstamp := ⟨3600, none⟩,
  rrule := some ⟨some [⟨9000, none⟩], "FREQ=WEEKLY"⟩,
  summary := "[G1] MATH101 - Algebra - Salle : 204",
  categories := some "CM",
  description := "Intervenant : Dupont - X" }

def calC1 : VCalendar := {
  xwrCalname := none, xwrCaldesc := none, xwrTimezone := none,
  xPublishedTtl := none, calscale := none,
  subcomponents := [.event evC1] }

/-- A fully working environment: readable catalog containing `fac`/`MU` with
subgroups `A`, `B`, an HTTP endpoint serving a parseable feed, and succeeding
cache writes. -/
def envC1 : Env := {
  planningsFile := some ⟨[("fac", instC1)], 0⟩,
  downloadResult := .error (),
  catalogWriteOk := true,
  icalsFile := none,
  icalBodyReadOk := true,
  http := fun _ => .ok (true, "BEGIN:VCALENDAR\nEND:VCALENDAR"),
  parseIcal := fun _ => some calC1,
  now := 1000000,
  feedWriteOk := true }

/-- Same environment, but persisting to the feed cache fails. -/
def envC4 : Env := { envC1 with feedWriteOk := false }

/-- Same environment, with a feed-cache entry for the `A` feed written 100
seconds ago (well within the 30-minute window) and a readable cached body. -/
def envC5 : Env :=
  { envC1 with icalsFile := some [(icalUrl "fac" "MU" "A", 999000)], now := 999100 }

/-- Event used by the C2/C3 witnesses: naive dates and a naive until bound. -/
def evW : VEvent := {
  dtstart := ⟨600, none⟩,
  dtend := ⟨660, none⟩,
  dtstamp := ⟨600, none⟩,
  rrule := some ⟨some [⟨700, none⟩], "FREQ=WEEKLY"⟩,
  summary := "A - B - C",
  categories := none,
  description := "x" }

def calW : VCalendar := {
  xwrCalname := none, xwrCaldesc := none, xwrTimezone := none,
  xPublishedTtl := none, calscale := none,
  subcomponents := [.event evW] }

/-- An event without any recurrence rule. -/
def evBad : VEvent := {
  dtstart := ⟨0, none⟩, dtend := ⟨0, none⟩, dtstamp := ⟨0, none⟩,
  rrule := none,
  summary := "A - B - C",
  categories := none,
  description := "x" }

def calBad : VCalendar := {
  xwrCalname := none, xwrCaldesc := none, xwrTimezone := none,
  xPublishedTtl := none, calscale := none,
  subcomponents := [.event evBad] }

/-- An event whose title has a single segment (no `-`). -/
def evC9 : VEvent := {
  dtstart := ⟨0, none⟩, dtend := ⟨0, none⟩, dtstamp := ⟨0, none⟩,
  rrule := some ⟨some [⟨0, none⟩], "FREQ=WEEKLY"⟩,
  summary := "MATH101",
  categories := none,
  description := "x" }

def calC9 : VCalendar := {
  xwrCalname := none, xwrCaldesc := none, xwrTimezone := none,
  xPublishedTtl := none, calscale := none,
  subcomponents := [.event evC9] }

/-- A second single-segment-title event, for the C9 witness. -/
def evC9w : VEvent := { evC9 with summary := "PHYS" }

def calC9w : VCalendar := { calC9 with subcomponents := [.event evC9w] }

/-- Raw feed text with trailing garbage after the terminator line. -/
def rawC8 : String := "BEGIN:VCALENDAR\nEND:VCALENDAR\ngarbage"

/-- The normalalized form of `calW` (no institution context). -/
def outW : VCalendar := {
  xwrCalname := some "Calendrier de l\x27UPMC",
  xwrCaldesc := some "Calendrier de l\x27UPMC",
  xwrTimezone := some "Europe/Paris",
  xPublishedTtl := some 21600,
  calscale := some "GREGORIAN",
  subcomponents := [.event {
    dtstart := ⟨600, some Tz.paris⟩,
    dtend := ⟨660, some Tz.paris⟩,
    dtstamp := ⟨-3000, some Tz.utc⟩,
    rrule := some ⟨some [⟨700, some Tz.paris⟩], "FREQ=WEEKLY"⟩,
    summary := "B (A)",
    categories := none,
    description := "B (A)\n\nIntervenant : inconnu\n\nSalle : C" }] }

/-! ## Helper lemmas -/

theorem pytzLocalize_ok {d d' : DateTime} (h : pytzLocalize d = .ok d') :
    d.tz = none ∧ d' = ⟨d.time, some Tz.paris⟩ := by
  unfold pytzLocalize at h
  cases hd : d.tz with
  | some t => rw [hd] at h; exact Except.noConfusion h
  | none => rw [hd] at h; injection h with h'; exact ⟨rfl, h'.symm⟩

theorem localizeAll_ok : ∀ {us us' : List DateTime}, localizeAll us = .ok us' →
    (∀ d ∈ us, d.tz = none) ∧ us' = localizedList us := by
  intro us
  induction us with
  | nil => intro us' h; injection h with h'; subst h'; exact ⟨by simp, rfl⟩
  | cons d ds ih =>
    intro us' h
    unfold localizeAll at h
    cases hd : pytzLocalize d with
    | error u => rw [hd] at h; exact Except.noConfusion h
    | ok d' =>
      rw [hd] at h
      cases hds : localizeAll ds with
      | error err => rw [hds] at h; exact Except.noConfusion h
      | ok ds' =>
        rw [hds] at h
        injection h with h'
        obtain ⟨hdtz, hd'⟩ := pytzLocalize_ok hd
        obtain ⟨htz, hmap⟩ := ih hds
        subst h'
        refine ⟨?_, ?_⟩
        · intro x hx
          rcases List.mem_cons.mp hx with hx | hx
          · subst hx; exact hdtz
          · exact htz x hx
        · simp [hd', hmap, localizedList]

theorem fixDates_ok {e e1 : VEvent} (h : fixDates e = .ok e1) :
    e.dtstart.tz = none ∧ e.dtend.tz = none ∧ e.dtstamp.tz = none ∧
    e1 = { e with dtstart := ⟨e.dtstart.time, some Tz.paris⟩,
                  dtend := ⟨e.dtend.time, some Tz.paris⟩,
                  dtstamp := astimezoneUtc ⟨e.dtstamp.time, some Tz.paris⟩ } := by
  unfold fixDates at h
  cases h1 : pytzLocalize e.dtstart with
  | error u => rw [h1] at h; exact Except.noConfusion h
  | ok s' =>
    rw [h1] at h
    cases h2 : pytzLocalize e.dtend with
    | error u => rw [h2] at h; exact Except.noConfusion h
    | ok en' =>
      rw [h2] at h
      cases h3 : pytzLocalize e.dtstamp with
      | error u => rw [h3] at h; exact Except.noConfusion h
      | ok st' =>
        rw [h3] at h
        injection h with h'
        obtain ⟨t1, r1⟩ := pytzLocalize_ok h1
        obtain ⟨t2, r2⟩ := pytzLocalize_ok h2
        obtain ⟨t3, r3⟩ := pytzLocalize_ok h3
        subst r1; subst r2; subst r3
        exact ⟨t1, t2, t3, h'.symm⟩

theorem fixRRule_ok {e e2 : VEvent} (h : fixRRule e = .ok e2) :
    ∃ r us, e.rrule = some r ∧ r.untils = some us ∧ (∀ d ∈ us, d.tz = none) ∧
      e2 = { e with rrule := some ⟨some (localizedList us), r.rest⟩ } := by
  unfold fixRRule at h
  split at h
  · exact Except.noConfusion h
  · rename_i r hr
    split at h
    · exact Except.noConfusion h
    · rename_i us hu
      split at h
      · exact Except.noConfusion h
      · rename_i us' hl
        injection h with h'
        obtain ⟨htz, hmap⟩ := localizeAll_ok hl
        subst hmap
        exact ⟨r, us, hr, hu, htz, h'.symm⟩

theorem fixTitleDesc_ok {rg : Bool} {e e' : VEvent} (h : fixTitleDesc rg e = .ok e') :
    e'.dtstart = e.dtstart ∧ e'.dtend = e.dtend ∧ e'.dtstamp = e.dtstamp ∧
    e'.rrule = e.rrule := by
  simp only [fixTitleDesc] at h
  cases hp : parseTitleParts (titleParts (workingTitle e.summary)) with
  | error err => rw [hp] at h; exact Except.noConfusion h
  | ok t3 =>
    obtain ⟨code, name, place0⟩ := t3
    rw [hp] at h
    injection h with h'
    rw [← h']
    exact ⟨rfl, rfl, rfl, rfl⟩

theorem fixEvent_ok {rg : Bool} {e e' : VEvent} (h : fixEvent rg e = .ok e') :
    ∃ e1 e2, fixDates e = .ok e1 ∧ fixRRule e1 = .ok e2 ∧ fixTitleDesc rg e2 = .ok e' := by
  unfold fixEvent at h
  split at h
  · exact Except.noConfusion h
  · rename_i e1 h1
    split at h
    · exact Except.noConfusion h
    · rename_i e2 h2
      exact ⟨e1, e2, h1, h2, h⟩

theorem fixComponent_event_ok {rg : Bool} {e : VEvent} {c' : Component}
    (h : fixComponent rg (.event e) = .ok c') :
    ∃ e', c' = .event e' ∧ fixEvent rg e = .ok e' := by
  simp only [fixComponent] at h
  split at h
  · exact Except.noConfusion h
  · rename_i e' hf
    injection h with h'
    exact ⟨e', h'.symm, hf⟩

theorem fixComponents_forall2 (rg : Bool) :
    ∀ l l', fixComponents rg l = .ok l' →
      List.Forall₂ (fun c c' => fixComponent rg c = .ok c') l l' := by
  intro l
  induction l with
  | nil =>
    intro l' h
    injection h with h'
    subst h'
    exact List.Forall₂.nil
  | cons c cs ih =>
    intro l' h
    simp only [fixComponents] at h
    split at h
    · exact Except.noConfusion h
    · rename_i c' hc
      split at h
      · exact Except.noConfusion h
      · rename_i cs' hcs
        injection h with h'
        subst h'
        exact List.Forall₂.cons hc (ih cs' hcs)

theorem fix_ok_components {env : Env} {cal : VCalendar} {uni public_code : Option String}
    {groups : Option (List String)} {remove_groups : Bool} {out : VCalendar}
    (h : fix_upmc_ical env cal uni public_code groups remove_groups = .ok out) :
    fixComponents remove_groups cal.subcomponents = .ok out.subcomponents := by
  unfold fix_upmc_ical at h
  cases hu : calendarUrlOf env uni public_code with
  | error err => rw [hu] at h; exact Except.noConfusion h
  | ok cu =>
    rw [hu] at h
    cases hfc : fixComponents remove_groups cal.subcomponents with
    | error err => rw [hfc] at h; exact Except.noConfusion h
    | ok comps =>
      rw [hfc] at h
      injection h with h'
      subst h'
      rfl

theorem forall2_mem_left {α β : Type} {R : α → β → Prop} :
    ∀ {l : List α} {l' : List β}, List.Forall₂ R l l' → ∀ {c}, c ∈ l →
      ∃ c', c' ∈ l' ∧ R c c' := by
  intro l l' h
  induction h with
  | nil => intro c hc; cases hc
  | @cons a b as bs hab _ ih =>
    intro c hc
    rcases List.mem_cons.mp hc with hc | hc
    · subst hc; exact ⟨b, List.mem_cons_self b bs, hab⟩
    · obtain ⟨c', hc', hr⟩ := ih hc
      exact ⟨c', List.mem_cons_of_mem b hc', hr⟩

theorem forall2_mem_right {α β : Type} {R : α → β → Prop} :
    ∀ {l : List α} {l' : List β}, List.Forall₂ R l l' → ∀ {c'}, c' ∈ l' →
      ∃ c, c ∈ l ∧ R c c' := by
  intro l l' h
  induction h with
  | nil => intro c' hc; cases hc
  | @cons a b as bs hab _ ih =>
    intro c' hc
    rcases List.mem_cons.mp hc with hc | hc
    · subst hc; exact ⟨a, List.mem_cons_self a as, hab⟩
    · obtain ⟨c, hcmem, hr⟩ := ih hc
      exact ⟨c, List.mem_cons_of_mem a hcmem, hr⟩

/-! ## Claim theorems -/

/-- C3: whenever the normalizer succeeds on a document, every emitted event's
start and end carry Europe/Paris attached to the zone-naive input values, and
the stamp is localized then converted to UTC — so every emitted event record
is timezone-aware. -/
theorem C3_theorem (env : Env) (cal : VCalendar) (uni public_code : Option String)
    (groups : Option (List String)) (remove_groups : Bool) (out : VCalendar)
    (h : fix_upmc_ical env cal uni public_code groups remove_groups = .ok out) :
    List.Forall₂ C3Rel cal.subcomponents out.subcomponents ∧
    ∀ e' ∈ eventsOf out, e'.dtstart.tz = some Tz.paris ∧ e'.dtend.tz = some Tz.paris ∧
      e'.dtstamp.tz = some Tz.utc := by
  have hf2 := fixComponents_forall2 remove_groups _ _ (fix_ok_components h)
  constructor
  · refine hf2.imp ?_
    intro c c' hcc' e hce
    subst hce
    obtain ⟨e', hc', hev⟩ := fixComponent_event_ok hcc'
    obtain ⟨e1, e2, h1, h2, h3⟩ := fixEvent_ok hev
    obtain ⟨t1, t2, t3, he1⟩ := fixDates_ok h1
    obtain ⟨r, us, hr, hu, htz, he2⟩ := fixRRule_ok h2
    obtain ⟨p1, p2, p3, _⟩ := fixTitleDesc_ok h3
    exact ⟨e', hc', t1, t2, t3,
      by simp [p1, he2, he1], by simp [p2, he2, he1], by simp [p3, he2, he1]⟩
  · intro e' he'
    simp only [eventsOf, List.mem_filterMap] at he'
    obtain ⟨c', hc'mem, hc'⟩ := he'
    obtain ⟨c, _, hcc'⟩ := forall2_mem_right hf2 hc'mem
    cases c with
    | other t =>
      simp only [fixComponent] at hcc'
      injection hcc' with h''
      rw [← h''] at hc'
      exact Option.noConfusion hc'
    | event e =>
      obtain ⟨e'', hc'', hev⟩ := fixComponent_event_ok hcc'
      subst hc''
      injection hc' with h''
      subst h''
      obtain ⟨e1, e2, h1, h2, h3⟩ := fixEvent_ok hev
      obtain ⟨t1, t2, t3, he1⟩ := fixDates_ok h1
      obtain ⟨r, us, hr, hu, htz, he2⟩ := fixRRule_ok h2
      obtain ⟨p1, p2, p3, _⟩ := fixTitleDesc_ok h3
      refine ⟨?_, ?_, ?_⟩ <;>
        simp [p1, p2, p3, he2, he1, astimezoneUtc]

/-- C3 witness: a concrete document on which the normalizer succeeds, with the
date-localization relation instantiated. -/
theorem C3_witness :
    fix_upmc_ical envT calW none none none true = .ok outW ∧
    List.Forall₂ C3Rel calW.subcomponents outW.subcomponents :=
  ⟨by rfl, (C3_theorem envT calW none none none true outW (by rfl)).1⟩

/-- C2: whenever the normalizer succeeds, every input event carried a
recurrence rule with zone-naive until bounds, and the corresponding emitted
event's rule has exactly those bounds rewritten as Europe/Paris-aware
date-times — every until bound of an emitted rule is timezone-aware. -/
theorem C2_theorem (env : Env) (cal : VCalendar) (uni public_code : Option String)
    (groups : Option (List String)) (remove_groups : Bool) (out : VCalendar)
    (h : fix_upmc_ical env cal uni public_code groups remove_groups = .ok out) :
    List.Forall₂ C2Rel cal.subcomponents out.subcomponents ∧
    ∀ e' ∈ eventsOf out, ∃ r' us', e'.rrule = some r' ∧ r'.untils = some us' ∧
      ∀ d ∈ us', d.tz = some Tz.paris := by
  have hf2 := fixComponents_forall2 remove_groups _ _ (fix_ok_components h)
  constructor
  · refine hf2.imp ?_
    intro c c' hcc' e hce
    subst hce
    obtain ⟨e', hc', hev⟩ := fixComponent_event_ok hcc'
    obtain ⟨e1, e2, h1, h2, h3⟩ := fixEvent_ok hev
    obtain ⟨t1, t2, t3, he1⟩ := fixDates_ok h1
    obtain ⟨r, us, hr, hu, htz, he2⟩ := fixRRule_ok h2
    obtain ⟨_, _, _, p4⟩ := fixTitleDesc_ok h3
    have hrr : e1.rrule = e.rrule := by rw [he1]
    refine ⟨e', r, us, hc', by rw [← hrr]; exact hr, hu, htz, ?_⟩
    rw [p4, he2]
  · intro e' he'
    simp only [eventsOf, List.mem_filterMap] at he'
    obtain ⟨c', hc'mem, hc'⟩ := he'
    obtain ⟨c, _, hcc'⟩ := forall2_mem_right hf2 hc'mem
    cases c with
    | other t =>
      simp only [fixComponent] at hcc'
      injection hcc' with h''
      rw [← h''] at hc'
      exact Option.noConfusion hc'
    | event e =>
      obtain ⟨e'', hc'', hev⟩ := fixComponent_event_ok hcc'
      subst hc''
      injection hc' with h''
      subst h''
      obtain ⟨e1, e2, h1, h2, h3⟩ := fixEvent_ok hev
      obtain ⟨t1, t2, t3, he1⟩ := fixDates_ok h1
      obtain ⟨r, us, hr, hu, htz, he2⟩ := fixRRule_ok h2
      obtain ⟨_, _, _, p4⟩ := fixTitleDesc_ok h3
      refine ⟨⟨some (localizedList us), r.rest⟩, localizedList us, ?_, rfl, ?_⟩
      · rw [p4, he2]
      · intro d hd
        simp only [localizedList, List.mem_map] at hd
        obtain ⟨d0, _, hd0⟩ := hd
        rw [← hd0]

/-- C2 witness: a concrete document with one recurring event, on which the
normalizer succeeds and the until-rewrite relation is instantiated. -/
theorem C2_witness :
    fix_upmc_ical envT calW none none none true = .ok outW ∧
    List.Forall₂ C2Rel calW.subcomponents outW.subcomponents :=
  ⟨by rfl, (C2_theorem envT calW none none none true outW (by rfl)).1⟩

/-- C10: the normalizer accesses `event['rrule']` and `recurrence['until']`
unconditionally, so a document containing any event without a recurrence rule,
or whose rule has no until bound, makes normalization of the whole feed fail —
it never succeeds on such a document. -/
theorem C10_theorem (env : Env) (cal : VCalendar) (uni public_code : Option String)
    (groups : Option (List String)) (remove_groups : Bool) (e : VEvent)
    (hmem : Component.event e ∈ cal.subcomponents)
    (hbad : e.rrule = none ∨ ∃ r, e.rrule = some r ∧ r.untils = none) :
    exceptIsOk (fix_upmc_ical env cal uni public_code groups remove_groups) = false := by
  cases hfix : fix_upmc_ical env cal uni public_code groups remove_groups with
  | error err => rfl
  | ok out =>
    exfalso
    have hf2 := fixComponents_forall2 remove_groups _ _ (fix_ok_components hfix)
    obtain ⟨c', _, hcc'⟩ := forall2_mem_left hf2 hmem
    obtain ⟨e', _, hev⟩ := fixComponent_event_ok hcc'
    obtain ⟨e1, e2, h1, h2, _⟩ := fixEvent_ok hev
    obtain ⟨r, us, hr, hu, _, _⟩ := fixRRule_ok h2
    obtain ⟨_, _, _, he1⟩ := fixDates_ok h1
    have hrr : e1.rrule = e.rrule := by rw [he1]
    rcases hbad with hb | ⟨r0, hb, hbu⟩
    · rw [hrr, hb] at hr
      exact Option.noConfusion hr
    · rw [hrr, hb] at hr
      injection hr with hr'
      rw [hr'] at hbu
      rw [hbu] at hu
      exact Option.noConfusion hu

/-- C10 witness: a document whose only event has no recurrence rule; the
normalizer fails on the whole feed. -/
theorem C10_witness :
    (Component.event evBad ∈ calBad.subcomponents) ∧ evBad.rrule = none ∧
    exceptIsOk (fix_upmc_ical envT calBad none none none true) = false :=
  ⟨by decide, rfl,
    C10_theorem envT calBad none none none true evBad (by decide) (Or.inl rfl)⟩

/-- C6: with `forceCache = true` and `forceUpdate = false`, a failed snapshot
read (missing or corrupt file) aborts with the HTTP 503 condition, and no
upstream discovery fetch is performed (the boolean fetch flag is `false`). -/
theorem C6_theorem (env : Env) (h : env.planningsFile = none) :
    get_upmc_plannings env true false = (.error (.httpAbort 503), false) := by
  simp [get_upmc_plannings, h]

/-- C6 witness: an environment whose snapshot read fails. -/
theorem C6_witness :
    get_upmc_plannings envT true false = (.error (.httpAbort 503), false) :=
  C6_theorem envT rfl

theorem findIdxFrom_eq_some {p : String → Bool} :
    ∀ {l : List String} {i : Nat}, i < l.length → p (l.getD i "") = true →
      (∀ j, j < i → p (l.getD j "") = false) → findIdxFrom p l = some i := by
  intro l
  induction l with
  | nil => intro i hi _ _; simp at hi
  | cons x xs ih =>
    intro i hi hp hbef
    cases i with
    | zero =>
      simp only [List.getD_cons_zero] at hp
      simp [findIdxFrom, hp]
    | succ n =>
      have hx : p x = false := by
        have := hbef 0 (Nat.succ_pos n)
        simpa using this
      have hrec : findIdxFrom p xs = some n := by
        refine ih ?_ ?_ ?_
        · simpa using Nat.lt_of_succ_lt_succ hi
        · simpa using hp
        · intro j hj
          have := hbef (j + 1) (by omega)
          simpa using this
      simp [findIdxFrom, hx, hrec]

/-- C8: when the raw feed text has a terminator line (trimmed,
case-insensitively equal to `END:VCALENDAR`) at index `k` and none after it,
the source's trim keeps exactly the lines up to and including `k` — trailing
garbage after the last terminator occurrence is discarded. -/
theorem C8_theorem (text : String) (k : Nat)
    (hk : k < (linesOf text).length)
    (hterm : isEndLine ((linesOf text).getD k "") = true)
    (hlast : ∀ j, j < (linesOf text).length → k < j →
      isEndLine ((linesOf text).getD j "") = false) :
    trimmedLines text = (linesOf text).take (k + 1) := by
  have hlen : (linesOf text).reverse.length = (linesOf text).length :=
    List.length_reverse _
  have hrevD : ∀ i, i < (linesOf text).length →
      (linesOf text).reverse.getD i "" =
        (linesOf text).getD ((linesOf text).length - 1 - i) "" := by
    intro i hi
    rw [List.getD_eq_getElem?_getD, List.getElem?_reverse hi, ← List.getD_eq_getElem?_getD]
  have hidx : findIdxFrom isEndLine (linesOf text).reverse =
      some ((linesOf text).length - 1 - k) := by
    refine findIdxFrom_eq_some ?_ ?_ ?_
    · rw [hlen]; omega
    · rw [hrevD _ (by omega)]
      have heq : (linesOf text).length - 1 - ((linesOf text).length - 1 - k) = k := by
        omega
      rw [heq]; exact hterm
    · intro j hj
      have hjlen : j < (linesOf text).length := by omega
      rw [hrevD _ hjlen]
      exact hlast _ (by omega) (by omega)
  have hstep : trimmedLines text =
      ((linesOf text).reverse.drop ((linesOf text).length - 1 - k)).reverse := by
    simp only [trimmedLines]
    rw [hidx]
  rw [hstep]
  have hn : (linesOf text).length - (k + 1) = (linesOf text).length - 1 - k := by omega
  calc ((linesOf text).reverse.drop ((linesOf text).length - 1 - k)).reverse
      = (((linesOf text).take (k + 1)).reverse).reverse := by
        rw [List.reverse_take, hn]
    _ = (linesOf text).take (k + 1) := List.reverse_reverse _

/-- C8 witness: a raw feed with garbage after the terminator is trimmed at the
terminator line. -/
theorem C8_witness :
    1 < (linesOf rawC8).length ∧
    trimmedLines rawC8 = (linesOf rawC8).take 2 :=
  ⟨by decide, C8_theorem rawC8 1 (by decide) (by decide) (by decide)⟩

theorem collect_append_none :
    ∀ (pre : List JsonRecord) (acc : List String) (post : List JsonRecord),
      collectGroups acc (pre ++ ⟨none⟩ :: post) = ((collectGroups acc pre).1, false) := by
  intro pre
  induction pre with
  | nil => intro acc post; rfl
  | cons r rs ih =>
    intro acc post
    obtain ⟨f⟩ := r
    cases f with
    | none => simp [collectGroups]
    | some g => simp [collectGroups, ih]

theorem collect_subset :
    ∀ (l : List JsonRecord) (acc : List String) (x : String),
      x ∈ (collectGroups acc l).1 → x ∈ acc ∨ (⟨some x⟩ : JsonRecord) ∈ l := by
  intro l
  induction l with
  | nil => intro acc x hx; exact Or.inl hx
  | cons r rs ih =>
    intro acc x hx
    obtain ⟨f⟩ := r
    cases f with
    | none =>
      simp only [collectGroups] at hx
      exact Or.inl hx
    | some g =>
      simp only [collectGroups] at hx
      rcases ih _ x hx with hin | hin
      · by_cases hc : acc.contains g
        · rw [if_pos hc] at hin
          exact Or.inl hin
        · rw [if_neg hc] at hin
          rcases List.mem_append.mp hin with h1 | h1
          · exact Or.inl h1
          · have hxg : x = g := by simpa using h1
            subst hxg
            exact Or.inr (List.mem_cons_self _ _)
      · exact Or.inr (List.mem_cons_of_mem _ hin)

theorem collect_good_ne_nil :
    ∀ (l : List JsonRecord) (acc : List String),
      (∀ r ∈ l, r.avaibleGroupId ≠ none) → (l ≠ [] ∨ acc ≠ []) →
      (collectGroups acc l).1 ≠ [] := by
  intro l
  induction l with
  | nil =>
    intro acc _ hne
    rcases hne with h | h
    · exact absurd rfl h
    · exact h
  | cons r rs ih =>
    intro acc hgood hne
    obtain ⟨f⟩ := r
    cases f with
    | none => exact absurd rfl (hgood ⟨none⟩ (List.mem_cons_self _ _))
    | some g =>
      simp only [collectGroups]
      refine ih _ (fun r hr => hgood r (List.mem_cons_of_mem _ hr)) (Or.inr ?_)
      by_cases hc : acc.contains g
      · rw [if_pos hc]
        exact List.ne_nil_of_mem (List.mem_of_elem_eq_true hc)
      · rw [if_neg hc]
        simp

theorem mem_insertPublic {x y : Public} :
    ∀ {l : List Public}, x ∈ insertPublic y l ↔ x = y ∨ x ∈ l := by
  intro l
  induction l with
  | nil => simp [insertPublic]
  | cons z zs ih =>
    simp only [insertPublic]
    by_cases hz : strLe z.name y.name
    · rw [if_pos hz]
      simp only [List.mem_cons, ih]
      tauto
    · rw [if_neg hz]
      simp only [List.mem_cons]

theorem mem_sortPublics_aux :
    ∀ (l acc : List Public) (x : Public),
      x ∈ l.foldl (fun a b => insertPublic b a) acc ↔ x ∈ acc ∨ x ∈ l := by
  intro l
  induction l with
  | nil => intro acc x; simp
  | cons y ys ih =>
    intro acc x
    simp only [List.foldl_cons]
    rw [ih, mem_insertPublic]
    simp only [List.mem_cons]
    tauto

theorem mem_sortPublics {x : Public} {l : List Public} :
    x ∈ sortPublics l ↔ x ∈ l := by
  unfold sortPublics
  rw [mem_sortPublics_aux]
  simp

/-- C7 (amended): every schedule-group is still recorded whatever its
subgroup-discovery outcome (failures are swallowed and discovery continues);
network and JSON-parse failures yield an empty subgroup list; but a record
missing the group-id field merely aborts collection at that record, keeping
the (unsorted) codes collected from earlier records — the resulting list is
independent of the remaining records, contains only codes contributed before
the failure, and is NON-empty whenever a well-formed record preceded the
failure. -/
theorem C7_theorem :
    (∀ (items : List (String × String × JsonCalResponse)) it, it ∈ items →
       ∃ pub, pub ∈ download_publics items ∧ pub.name = it.1 ∧ pub.url = it.2.1 ∧
         pub.groups = discover_groups it.2.2) ∧
    (discover_groups .netError = [] ∧ discover_groups .parseError = []) ∧
    (∀ pre post post', discover_groups (.records (pre ++ ⟨none⟩ :: post)) =
       discover_groups (.records (pre ++ ⟨none⟩ :: post'))) ∧
    (∀ pre post x, x ∈ discover_groups (.records (pre ++ ⟨none⟩ :: post)) →
       (⟨some x⟩ : JsonRecord) ∈ pre) ∧
    (∀ pre post, pre ≠ [] → (∀ r ∈ pre, r.avaibleGroupId ≠ none) →
       discover_groups (.records (pre ++ ⟨none⟩ :: post)) ≠ []) := by
  refine ⟨?_, ⟨rfl, rfl⟩, ?_, ?_, ?_⟩
  · intro items it hit
    refine ⟨mkPublicItem it, ?_, rfl, rfl, rfl⟩
    unfold download_publics
    rw [mem_sortPublics]
    exact List.mem_map_of_mem _ hit
  · intro pre post post'
    simp only [discover_groups, collect_append_none]
  · intro pre post x hx
    simp only [discover_groups, collect_append_none] at hx
    rcases collect_subset pre [] x hx with h | h
    · cases h
    · exact h
  · intro pre post hne hgood
    simp only [discover_groups, collect_append_none]
    exact collect_good_ne_nil pre [] hgood (Or.inl hne)

/-- C7 counterexample: a subgroup-discovery response whose second record lacks
the group-id field.  The failure is swallowed, but the schedule-group is
recorded with the NON-empty list `["A"]` collected before the failure — not
with an empty subgroup list as claimed. -/
theorem C7_counterexample :
    download_publics [("S", "u", .records [⟨some "A"⟩, ⟨none⟩])] =
      [{ name := "S", groups := ["A"], url := "u" }] ∧
    discover_groups (.records [⟨some "A"⟩, ⟨none⟩]) ≠ [] :=
  ⟨by decide, by decide⟩

/-- C7 witness: instantiating the amended claim's non-emptiness clause. -/
theorem C7_witness :
    discover_groups (.records [⟨some "B"⟩, ⟨none⟩, ⟨some "Z"⟩]) ≠ [] :=
  C7_theorem.2.2.2.2 [⟨some "B"⟩] [⟨some "Z"⟩] (by decide) (by decide)

theorem splitOnChar_ne_nil (sep : Char) : ∀ cs, splitOnChar sep cs ≠ [] := by
  intro cs
  induction cs with
  | nil => exact fun h => List.noConfusion h
  | cons c cs _ =>
    simp only [splitOnChar]
    by_cases h : (c == sep) = true
    · rw [if_pos h]
      exact fun hh => List.noConfusion hh
    · rw [if_neg h]
      cases hr : splitOnChar sep cs with
      | nil => exact fun hh => List.noConfusion hh
      | cons x xs => exact fun hh => List.noConfusion hh

theorem titleParts_ne_nil (t : String) : titleParts t ≠ [] := by
  unfold titleParts
  intro h
  exact splitOnChar_ne_nil '-' t.data (List.map_eq_nil_iff.mp h)

/-- C9 (amended): an event whose working title splits into fewer than two
segments does NOT yield best-effort output — accessing the second segment
raises `IndexError` and normalization of the whole document fails. -/
theorem C9_theorem (env : Env) (cal : VCalendar) (uni public_code : Option String)
    (groups : Option (List String)) (remove_groups : Bool) (e : VEvent)
    (hmem : Component.event e ∈ cal.subcomponents)
    (hseg : (titleParts (workingTitle e.summary)).length < 2) :
    exceptIsOk (fix_upmc_ical env cal uni public_code groups remove_groups) = false := by
  cases hfix : fix_upmc_ical env cal uni public_code groups remove_groups with
  | error err => rfl
  | ok out =>
    exfalso
    have hf2 := fixComponents_forall2 remove_groups _ _ (fix_ok_components hfix)
    obtain ⟨c', _, hcc'⟩ := forall2_mem_left hf2 hmem
    obtain ⟨e', _, hev⟩ := fixComponent_event_ok hcc'
    obtain ⟨e1, e2, h1, h2, h3⟩ := fixEvent_ok hev
    obtain ⟨_, _, _, he1⟩ := fixDates_ok h1
    obtain ⟨r, us, hr, hu, htz, he2⟩ := fixRRule_ok h2
    have hsum : e2.summary = e.summary := by rw [he2, he1]
    obtain ⟨x, hx⟩ : ∃ x, titleParts (workingTitle e.summary) = [x] := by
      cases hl : titleParts (workingTitle e.summary) with
      | nil => exact absurd hl (titleParts_ne_nil _)
      | cons a as =>
        cases as with
        | nil => exact ⟨a, rfl⟩
        | cons b bs => rw [hl] at hseg; simp only [List.length_cons] at hseg; omega
    simp only [fixTitleDesc] at h3
    rw [hsum, hx] at h3
    exact Except.noConfusion h3

/-- C9 counterexample: the normalizer raises (IndexError) on a document whose
single event's title has one segment, contradicting the claim that it still
emits best-effort output for the feed. -/
theorem C9_counterexample :
    fix_upmc_ical envT calC9 none none none true = .error .indexError := by rfl

/-- C9 witness: the amended claim at a concrete document. -/
theorem C9_witness :
    (Component.event evC9w ∈ calC9w.subcomponents) ∧
    (titleParts (workingTitle evC9w.summary)).length < 2 ∧
    exceptIsOk (fix_upmc_ical envT calC9w none none none true) = false :=
  ⟨by decide, by decide,
    C9_theorem envT calC9w none none none true evC9w (by decide) (by decide)⟩

/-- C4 (code bug): in an environment where the upstream fetch and
normalization succeed (the identical call with a working cache returns a
calendar), a feed-cache persistence failure makes the whole call fail with the
re-raised IOError — `except Exception as e: raise e` — instead of still
returning the normalized calendar. -/
theorem C4_code_bug :
    (get_upmc_ical envC4 "fac" "MU" "A").1 = .error .ioError ∧
    exceptIsOkSome ((get_upmc_ical envC1 "fac" "MU" "A").1) = true :=
  ⟨by rfl, by rfl⟩

/-- C5 (code bug): with a feed-cache entry 100 seconds old (fresh for the
30-minute window) whose persisted body reads back successfully, the call still
performs the upstream HTTP fetch and returns the freshly normalized document:
the cached return is commented out (`pass#return f.read()`), so the fast path
never short-circuits. -/
theorem C5_code_bug :
    (get_upmc_ical envC5 "fac" "MU" "A").2.cacheFresh = true ∧
    (get_upmc_ical envC5 "fac" "MU" "A").2.bodyReadOk = some true ∧
    (get_upmc_ical envC5 "fac" "MU" "A").2.fetchedUpstream = true ∧
    exceptIsOkSome ((get_upmc_ical envC5 "fac" "MU" "A").1) = true :=
  ⟨by rfl, by rfl, by rfl, by rfl⟩

/-- C1 counterexample: for the schedule `fac`/`MU` with subgroup codes
`["A", "B"]`, requesting `tout` KEEPS the bracketed group label in the
rewritten summary, and requesting the single group `A` STRIPS it — the
opposite of the claimed stripping direction (the token does resolve to
`A_B`, as the trace shows). -/
theorem C1_counterexample :
    firstSummary ((get_upmc_ical envC1 "fac" "MU" "tout").1) =
      some "[G1] Algebra (MATH101)" ∧
    firstSummary ((get_upmc_ical envC1 "fac" "MU" "A").1) =
      some "Algebra (MATH101)" ∧
    (get_upmc_ical envC1 "fac" "MU" "tout").2.resolvedGroup = some "A_B" :=
  ⟨by rfl, by rfl, by rfl⟩

/-- C1 (amended): requesting `tout`/`all` resolves the group token to the
underscore-joined subgroup codes (the literal `0` when the list is empty) and
runs the normalizer with `remove_groups = False`, while a single specific
group runs it with `remove_groups = True`; consequently a bracketed group
label found in an event title is KEPT in the summary for the all-groups
request and STRIPPED for a specific-group request — on the same event, the
all-groups summary is exactly the group label, a space, and the
specific-group summary. -/
theorem C1_theorem (env : Env) (uni pc sel : String) (pub : Public)
    (hsel : sel = "all" ∨ sel = "tout")
    (hpub : get_upmc_public env uni pc = .ok (some pub)) :
    (get_upmc_ical env uni pc sel =
       get_upmc_ical_fetch env uni pc pub.groups
         (if pub.groups.isEmpty then "0" else joinSep "_" pub.groups) false
         (env.icalsFile.getD [])) ∧
    ((get_upmc_ical env uni pc sel).2.resolvedGroup =
       some (if pub.groups.isEmpty then "0" else joinSep "_" pub.groups)) ∧
    (∀ sel2, sel2 ≠ "all" → sel2 ≠ "tout" →
       get_upmc_ical env uni pc sel2 =
         get_upmc_ical_fetch env uni pc [sel2] sel2 true (env.icalsFile.getD [])) ∧
    (∀ e ef et g rest, findGroupMatch e.summary = some (g, rest) →
       fixEvent false e = .ok ef → fixEvent true e = .ok et →
       ef.summary = g ++ " " ++ et.summary) := by
  have hga : (sel == "all" || sel == "tout") = true := by
    rcases hsel with h | h <;> subst h <;> rfl
  have hrun : get_upmc_ical env uni pc sel =
      get_upmc_ical_fetch env uni pc pub.groups
        (if pub.groups.isEmpty then "0" else joinSep "_" pub.groups) false
        (env.icalsFile.getD []) := by
    simp only [get_upmc_ical]
    rw [hga, hpub]
    rfl
  refine ⟨hrun, by rw [hrun]; rfl, ?_, ?_⟩
  · intro sel2 h1 h2
    have hb : (sel2 == "all" || sel2 == "tout") = false := by
      rw [beq_eq_false_iff_ne.mpr h1, beq_eq_false_iff_ne.mpr h2]
      rfl
    simp only [get_upmc_ical]
    rw [hb]
    rfl
  · intro e ef et g rest hg hf ht
    obtain ⟨e1, e2, h1, h2, h3⟩ := fixEvent_ok hf
    obtain ⟨e1', e2', h1', h2', h3'⟩ := fixEvent_ok ht
    rw [h1] at h1'
    injection h1' with he11
    subst he11
    rw [h2] at h2'
    injection h2' with he22
    subst he22
    obtain ⟨_, _, _, he1⟩ := fixDates_ok h1
    obtain ⟨r, us, _, _, _, he2⟩ := fixRRule_ok h2
    have hsum : e2.summary = e.summary := by rw [he2, he1]
    simp only [fixTitleDesc, hsum, hg, Option.map_some'] at h3 h3'
    cases hp : parseTitleParts (titleParts (workingTitle e.summary)) with
    | error err => rw [hp] at h3; exact Except.noConfusion h3
    | ok t3 =>
      obtain ⟨code, name, place0⟩ := t3
      rw [hp] at h3 h3'
      injection h3 with hef
      injection h3' with het
      rw [← hef, ← het]
      show (g ++ " ") ++ _ ++ name ++ _ = g ++ " " ++ ("" ++ _ ++ name ++ _)
      simp only [String.empty_append, String.append_assoc]

/-- C1 witness: the amended claim at the concrete catalog with subgroups
`["A", "B"]` — the resolved token is `A_B`. -/
theorem C1_witness :
    (get_upmc_ical envC1 "fac" "MU" "tout").2.resolvedGroup = some "A_B" :=
  ((C1_theorem envC1 "fac" "MU" "tout" pubC1 (Or.inr rfl) (by rfl)).2.1).trans
    (by rfl)

end UPMC
